import Mathlib

/-!
Verification of the browser-indexeddb query/update engines.

The TypeScript sources (QueryEngine, Collection, Storage, utils) are shallowly
embedded below.  JavaScript runtime values are modelled by `Value`; JS objects
are association lists of string keys (JS objects have unique keys, and key
insertion order is preserved, which the list order represents).  JS numbers are
modelled as `Int` (all programs under verification use integral numbers; IEEE
float behaviour is out of scope).  `undefined` is represented by `Option.none`
at the points where the source can observe it (absent fields, absent
properties); it is never stored inside a document.  Reference identity of
composite values is modelled by `strictEq` below, which is where the JS `===`
and `includes` operations appear in the source.
-/

namespace BrowserDB

/-- Model of a JavaScript runtime value as stored in a document, a query or an
update description.  `vobj` carries the object's own enumerable string-keyed
fields in insertion order.  A `RegExp` condition value and IEEE-specific
numbers (NaN, fractions) are not modelled; no claim exercises them. -/
inductive Value : Type where
  | vnull : Value
  | vbool : Bool → Value
  | vnum : Int → Value
  | vstr : String → Value
  | varr : List Value → Value
  | vobj : List (String × Value) → Value

mutual
/-- Structural (syntactic) decidable equality for `Value`; the derive handler
does not support the nested inductive, so the instance is spelled out. -/
def decEqV : (a b : Value) → Decidable (a = b)
  | .vnull, .vnull => .isTrue rfl
  | .vbool a, .vbool b =>
    match Bool.decEq a b with
    | .isTrue h => .isTrue (by rw [h])
    | .isFalse h => .isFalse (by intro c; injection c; contradiction)
  | .vnum a, .vnum b =>
    match Int.decEq a b with
    | .isTrue h => .isTrue (by rw [h])
    | .isFalse h => .isFalse (by intro c; injection c; contradiction)
  | .vstr a, .vstr b =>
    match String.decEq a b with
    | .isTrue h => .isTrue (by rw [h])
    | .isFalse h => .isFalse (by intro c; injection c; contradiction)
  | .varr a, .varr b =>
    match decEqVL a b with
    | .isTrue h => .isTrue (by rw [h])
    | .isFalse h => .isFalse (by intro c; injection c; contradiction)
  | .vobj a, .vobj b =>
    match decEqVF a b with
    | .isTrue h => .isTrue (by rw [h])
    | .isFalse h => .isFalse (by intro c; injection c; contradiction)
  | .vnull, .vbool _ => .isFalse (fun h => Value.noConfusion h)
  | .vnull, .vnum _ => .isFalse (fun h => Value.noConfusion h)
  | .vnull, .vstr _ => .isFalse (fun h => Value.noConfusion h)
  | .vnull, .varr _ => .isFalse (fun h => Value.noConfusion h)
  | .vnull, .vobj _ => .isFalse (fun h => Value.noConfusion h)
  | .vbool _, .vnull => .isFalse (fun h => Value.noConfusion h)
  | .vbool _, .vnum _ => .isFalse (fun h => Value.noConfusion h)
  | .vbool _, .vstr _ => .isFalse (fun h => Value.noConfusion h)
  | .vbool _, .varr _ => .isFalse (fun h => Value.noConfusion h)
  | .vbool _, .vobj _ => .isFalse (fun h => Value.noConfusion h)
  | .vnum _, .vnull => .isFalse (fun h => Value.noConfusion h)
  | .vnum _, .vbool _ => .isFalse (fun h => Value.noConfusion h)
  | .vnum _, .vstr _ => .isFalse (fun h => Value.noConfusion h)
  | .vnum _, .varr _ => .isFalse (fun h => Value.noConfusion h)
  | .vnum _, .vobj _ => .isFalse (fun h => Value.noConfusion h)
  | .vstr _, .vnull => .isFalse (fun h => Value.noConfusion h)
  | .vstr _, .vbool _ => .isFalse (fun h => Value.noConfusion h)
  | .vstr _, .vnum _ => .isFalse (fun h => Value.noConfusion h)
  | .vstr _, .varr _ => .isFalse (fun h => Value.noConfusion h)
  | .vstr _, .vobj _ => .isFalse (fun h => Value.noConfusion h)
  | .varr _, .vnull => .isFalse (fun h => Value.noConfusion h)
  | .varr _, .vbool _ => .isFalse (fun h => Value.noConfusion h)
  | .varr _, .vnum _ => .isFalse (fun h => Value.noConfusion h)
  | .varr _, .vstr _ => .isFalse (fun h => Value.noConfusion h)
  | .varr _, .vobj _ => .isFalse (fun h => Value.noConfusion h)
  | .vobj _, .vnull => .isFalse (fun h => Value.noConfusion h)
  | .vobj _, .vbool _ => .isFalse (fun h => Value.noConfusion h)
  | .vobj _, .vnum _ => .isFalse (fun h => Value.noConfusion h)
  | .vobj _, .vstr _ => .isFalse (fun h => Value.noConfusion h)
  | .vobj _, .varr _ => .isFalse (fun h => Value.noConfusion h)

/-- Decidable equality for lists of values. -/
def decEqVL : (a b : List Value) → Decidable (a = b)
  | [], [] => .isTrue rfl
  | [], _ :: _ => .isFalse (fun h => List.noConfusion h)
  | _ :: _, [] => .isFalse (fun h => List.noConfusion h)
  | a :: as, b :: bs =>
    match decEqV a b with
    | .isTrue h1 =>
      match decEqVL as bs with
      | .isTrue h2 => .isTrue (by rw [h1, h2])
      | .isFalse h2 => .isFalse (by intro c; injection c; contradiction)
    | .isFalse h1 => .isFalse (by intro c; injection c; contradiction)

/-- Decidable equality for field lists. -/
def decEqVF : (a b : List (String × Value)) → Decidable (a = b)
  | [], [] => .isTrue rfl
  | [], _ :: _ => .isFalse (fun h => List.noConfusion h)
  | _ :: _, [] => .isFalse (fun h => List.noConfusion h)
  | (k1, v1) :: as, (k2, v2) :: bs =>
    match String.decEq k1 k2 with
    | .isTrue hk =>
      match decEqV v1 v2 with
      | .isTrue hv =>
        match decEqVF as bs with
        | .isTrue h2 => .isTrue (by rw [hk, hv, h2])
        | .isFalse h2 => .isFalse (by intro c; injection c; contradiction)
      | .isFalse hv =>
        .isFalse (by intro c; injection c with c1 c2; cases c1; contradiction)
    | .isFalse hk =>
      .isFalse (by intro c; injection c with c1 c2; cases c1; contradiction)
end

instance : DecidableEq Value := decEqV

/-- A JS object: association list of fields in insertion order. -/
abbrev Obj := List (String × Value)

/-- Own-property lookup on a JS object (`o[k]` where `o` has unique keys).
Returns `none` for `undefined`. -/
def lookupF : Obj → String → Option Value
  | [], _ => none
  | (k0, v0) :: rest, k => if k0 = k then some v0 else lookupF rest k

/-- JS truthiness of a value (`if (x)`).  `NaN` is not representable in the
`Int` number model. -/
def isTruthy : Value → Bool
  | .vnull => false
  | .vbool b => b
  | .vnum n => n != 0
  | .vstr s => s != ""
  | .varr _ => true
  | .vobj _ => true

/-- JS strict equality `===`.  Primitives compare by value; arrays and objects
compare by reference.  In this model distinct composite values never share a
reference (documents come out of structured clones, operands out of separate
literals), so composites compare unequal. -/
def strictEq : Value → Value → Bool
  | .vnull, .vnull => true
  | .vbool a, .vbool b => a == b
  | .vnum a, .vnum b => a == b
  | .vstr a, .vstr b => a == b
  | _, _ => false

/-- Char-list prefix test: `listPrefixEq p s` is true when `p` is a prefix of
`s`.  Library string functions are avoided throughout because they do not
reduce inside the kernel; all string computations here work on the
character list of the string, which is semantically identical for the
code-unit strings the source manipulates. -/
def listPrefixEq : List Char → List Char → Bool
  | [], _ => true
  | _ :: _, [] => false
  | p :: ps, c :: cs => p == c && listPrefixEq ps cs

/-- JS `s.startsWith(p)`. -/
def jsStartsWith (s p : String) : Bool := listPrefixEq p.data s.data

/-- JS `s.endsWith(p)`. -/
def jsEndsWith (s p : String) : Bool :=
  listPrefixEq p.data.reverse s.data.reverse

/-- Code-unit lexicographic `<` on strings (JS string relational
comparison). -/
def listLtChars : List Char → List Char → Bool
  | [], [] => false
  | [], _ :: _ => true
  | _ :: _, [] => false
  | a :: as, b :: bs =>
    if a < b then true else if b < a then false else listLtChars as bs

/-- JS `s < t` for strings. -/
def strLt (s t : String) : Bool := listLtChars s.data t.data

/-- Parse a non-empty all-digit character list as a natural number. -/
def digitsToNat : List Char → Option Nat
  | [] => none
  | cs =>
    if cs.all (fun c => c.isDigit) then
      some (cs.foldl (fun acc c => acc * 10 + (c.toNat - 48)) 0)
    else none

/-- Canonical array index access `a[k]` for a string property key `k`
(only the canonical decimal form of an index hits an element, as in JS). -/
def idxGet (l : List Value) (k : String) : Option Value :=
  match digitsToNat k.data with
  | some i => if toString i = k then l.get? i else none
  | none => none

/-- Property access on an array value: index elements plus the `length`
property (the only non-index array property the embedded source can touch). -/
def arrProp (l : List Value) (k : String) : Option Value :=
  if k = "length" then some (.vnum l.length) else idxGet l k

mutual
/-- `QueryEngine.isEqual`: the source's deep structural equality.
`a === b` covers the primitive cases; `typeof` mismatches are `false`; arrays
compare by length and position; objects compare by key-set size and per-key
recursion (a key of `a` missing from `b` yields `isEqual(v, undefined) =
false`).  A mixed array/object pair falls into the source's object branch,
which compares the array's index properties. -/
def isEqual : Value → Value → Bool
  | .vnull, .vnull => true
  | .vbool a, .vbool b => a == b
  | .vnum a, .vnum b => a == b
  | .vstr a, .vstr b => a == b
  | .varr a, .varr b => a.length == b.length && eqElems a b
  | .varr a, .vobj b => a.length == b.length && eqIdxFields a 0 b
  | .vobj a, .varr b => a.length == b.length && eqFieldsArr a b
  | .vobj a, .vobj b => a.length == b.length && eqFieldsObj a b
  | _, _ => false
termination_by structural a => a

/-- Element-wise equality of two arrays of equal length. -/
def eqElems : List Value → List Value → Bool
  | [], [] => true
  | v :: vs, w :: ws => isEqual v w && eqElems vs ws
  | _, _ => false
termination_by structural l => l

/-- Each field of the first object must be `isEqual` to the same key of the
second object. -/
def eqFieldsObj : Obj → Obj → Bool
  | [], _ => true
  | (_k, v) :: rest, b =>
    (match lookupF b _k with
     | some w => isEqual v w
     | none => false) && eqFieldsObj rest b
termination_by structural l => l

/-- Object compared against an array (source object branch, `b[key]` is array
property access). -/
def eqFieldsArr : Obj → List Value → Bool
  | [], _ => true
  | (_k, v) :: rest, b =>
    (match arrProp b _k with
     | some w => isEqual v w
     | none => false) && eqFieldsArr rest b
termination_by structural l => l

/-- Array compared against an object: the array's keys are its indices. -/
def eqIdxFields : List Value → Nat → Obj → Bool
  | [], _, _ => true
  | v :: vs, i, b =>
    (match lookupF b (toString i) with
     | some w => isEqual v w
     | none => false) && eqIdxFields vs (i + 1) b
termination_by structural l => l
end

mutual
/-- JS `ToString` of a value (`String(v)`): used where the source coerces a
value to a string (array-to-primitive, `startsWith`/`endsWith` operands). -/
def jsToStr : Value → String
  | .vnull => "null"
  | .vbool b => if b then "true" else "false"
  | .vnum n => toString n
  | .vstr s => s
  | .varr l => joinComma l
  | .vobj _ => "[object Object]"

/-- `Array.prototype.toString` = `join(",")`: `null`/`undefined` elements print
as the empty string, nested values recurse through `ToString`. -/
def joinComma : List Value → String
  | [] => ""
  | [v] => elemStr v
  | v :: w :: rest => elemStr v ++ "," ++ joinComma (w :: rest)

/-- One joined array element (`null` prints empty inside a join). -/
def elemStr : Value → String
  | .vnull => ""
  | .vbool b => if b then "true" else "false"
  | .vnum n => toString n
  | .vstr s => s
  | .varr l => joinComma l
  | .vobj _ => "[object Object]"
end

/-- JS `ToNumber` of a string: whitespace-trimmed, empty means `0`, optional
sign followed by decimal digits; anything else is `NaN` (`none`).  Fractional,
hex and exponent forms are not modelled (no claim exercises them). -/
def strToNum (s : String) : Option Int :=
  let cs := ((s.data.dropWhile Char.isWhitespace).reverse.dropWhile
    Char.isWhitespace).reverse
  match cs with
  | [] => some 0
  | c :: rest =>
    if c = '-' then (digitsToNat rest).map (fun n => -(n : Int))
    else if c = '+' then (digitsToNat rest).map (fun n => (n : Int))
    else (digitsToNat (c :: rest)).map (fun n => (n : Int))

/-- JS `ToPrimitive` with default hint for the values here: arrays and plain
objects stringify (`valueOf` returns the object itself), primitives pass
through. -/
def toPrim : Value → Value
  | .varr l => .vstr (joinComma l)
  | .vobj _ => .vstr "[object Object]"
  | v => v

/-- JS `ToNumber` of a value; `none` is `NaN`.  Composites go through
`ToPrimitive` (stringification) and then string `ToNumber`. -/
def toNumPrim : Value → Option Int
  | .vnull => some 0
  | .vbool b => some (if b then 1 else 0)
  | .vnum n => some n
  | .vstr s => strToNum s
  | .varr l => strToNum (joinComma l)
  | .vobj _ => strToNum "[object Object]"

/-- JS abstract relational comparison `a < b`: if both primitives are strings,
compare lexicographically, otherwise compare as numbers with `NaN`
incomparable. -/
def jsLtB (a b : Value) : Bool :=
  match toPrim a, toPrim b with
  | .vstr s, .vstr t => strLt s t
  | pa, pb =>
    match toNumPrim pa, toNumPrim pb with
    | some x, some y => decide (x < y)
    | _, _ => false

/-- JS `a > b`. -/
def jsGtB (a b : Value) : Bool :=
  match toPrim a, toPrim b with
  | .vstr s, .vstr t => strLt t s
  | pa, pb =>
    match toNumPrim pa, toNumPrim pb with
    | some x, some y => decide (y < x)
    | _, _ => false

/-- JS `a <= b` (false when either side is `NaN`). -/
def jsLeB (a b : Value) : Bool :=
  match toPrim a, toPrim b with
  | .vstr s, .vstr t => ! strLt t s
  | pa, pb =>
    match toNumPrim pa, toNumPrim pb with
    | some x, some y => decide (x ≤ y)
    | _, _ => false

/-- JS `a >= b` (false when either side is `NaN`). -/
def jsGeB (a b : Value) : Bool :=
  match toPrim a, toPrim b with
  | .vstr s, .vstr t => ! strLt s t
  | pa, pb =>
    match toNumPrim pa, toNumPrim pb with
    | some x, some y => decide (y ≤ x)
    | _, _ => false

/-- Accumulating worker for `path.split('.')`. -/
def splitDotAux : List Char → List Char → List String
  | [], acc => [String.mk acc.reverse]
  | c :: cs, acc =>
    if c = '.' then String.mk acc.reverse :: splitDotAux cs []
    else splitDotAux cs (c :: acc)

/-- JS `path.split('.')` (always non-empty; the empty path gives `[""]`). -/
def splitDots (s : String) : List String := splitDotAux s.data []

/-- Walk the split path segments, as the loop in `getNestedValue` does:
`null`/`undefined` stop with `undefined`, objects and arrays are indexed, any
other value stops with `undefined`. -/
def getNestedWalk : Option Value → List String → Option Value
  | cur, [] => cur
  | none, _ :: _ => none
  | some v, k :: ks =>
    match v with
    | .vobj fields => getNestedWalk (lookupF fields k) ks
    | .varr elems => getNestedWalk (arrProp elems k) ks
    | _ => none

/-- `getNestedValue(doc, path)` from `utils`: dot-path resolution over a
document. -/
def getNestedValue (doc : Obj) (path : String) : Option Value :=
  getNestedWalk (some (.vobj doc)) (splitDots path)

/-- `isEqual(value, c)` where `value` may be `undefined`: `undefined` equals no
modelled condition value (`typeof` mismatch in the source). -/
def optIsEqual (value : Option Value) (c : Value) : Bool :=
  match value with
  | some v => isEqual v c
  | none => false

/-- The operator-mapping branch of `QueryEngine.matchesCondition`: every
operator present in `ops` must succeed.  Checks appear in source order; absent
operators succeed vacuously.  The `$regex` branch of the source is not
modelled (`RegExp` values are outside the `Value` model and no claim touches
it). -/
def matchesOps (value : Option Value) (ops : Obj) : Bool :=
  (match lookupF ops "$eq" with
   | some e => optIsEqual value e
   | none => true) &&
  (match lookupF ops "$ne" with
   | some e => ! optIsEqual value e
   | none => true) &&
  (match lookupF ops "$gt" with
   | some g =>
     match value with
     | none => false
     | some .vnull => false
     | some v => jsGtB v g
   | none => true) &&
  (match lookupF ops "$gte" with
   | some g =>
     match value with
     | none => false
     | some .vnull => false
     | some v => jsGeB v g
   | none => true) &&
  (match lookupF ops "$lt" with
   | some g =>
     match value with
     | none => false
     | some .vnull => false
     | some v => jsLtB v g
   | none => true) &&
  (match lookupF ops "$lte" with
   | some g =>
     match value with
     | none => false
     | some .vnull => false
     | some v => jsLeB v g
   | none => true) &&
  (match lookupF ops "$in" with
   | some (.varr l) => l.any (fun v => optIsEqual value v)
   | _ => true) &&
  (match lookupF ops "$nin" with
   | some (.varr l) => ! l.any (fun v => optIsEqual value v)
   | _ => true) &&
  (match lookupF ops "$exists" with
   | some c =>
     match c with
     | .vbool b => value.isSome == b
     | _ => false
   | none => true) &&
  (match lookupF ops "$startsWith" with
   | some p =>
     match value with
     | some (.vstr s) => jsStartsWith s (jsToStr p)
     | _ => false
   | none => true) &&
  (match lookupF ops "$endsWith" with
   | some p =>
     match value with
     | some (.vstr s) => jsEndsWith s (jsToStr p)
     | _ => false
   | none => true) &&
  (match lookupF ops "$contains" with
   | some c =>
     match value with
     | some (.varr l) => l.any (fun v => isEqual v c)
     | _ => false
   | none => true)

/-- `QueryEngine.matchesCondition`: a `null` or non-object condition compares
by `isEqual`; an object condition takes the operator branch.  A JS array is
`typeof "object"`, so an array condition also takes the operator branch, where
it carries none of the operator keys and succeeds vacuously. -/
def matchesCondition (value : Option Value) (cond : Value) : Bool :=
  match cond with
  | .vobj ops => matchesOps value ops
  | .varr _ => matchesOps value []
  | c => optIsEqual value c

/-- A query node as the runtime object the engine receives: the non-combinator
entries in insertion order (each paired with its condition value), and the
`$and` / `$or` / `$not` combinator properties.  `some` models a combinator
key that is present with a truthy operand of the declared type (a `$and`/`$or`
array, a `$not` sub-query object); a combinator that is absent — or present
with a falsy operand, which the source skips identically — is `none`. -/
inductive Query : Type where
  | node :
    (fields : List (String × Value)) →
    (qand : Option (List Query)) →
    (qor : Option (List Query)) →
    (qnot : Option Query) → Query

/-- The field loop of `QueryEngine.matches` (embedded as `matchesQ`): every non-`$`-prefixed entry must
satisfy its condition against the dot-path-resolved document value; keys
starting with `$` are skipped by the loop. -/
def matchesFields (doc : Obj) (fields : List (String × Value)) : Bool :=
  fields.all (fun kv =>
    jsStartsWith kv.fst "$" || matchesCondition (getNestedValue doc kv.fst) kv.snd)

mutual
/-- `QueryEngine.matches` (the name `matches` is a Lean keyword, hence `matchesQ`): a present `$and` returns immediately with the
conjunction over its sub-queries; otherwise a present `$or` returns the
disjunction; otherwise a present `$not` returns the negation; only a node
with no combinator evaluates its field entries. -/
def matchesQ (doc : Obj) : Query → Bool
  | .node fields qand qor qnot =>
    match qand with
    | some qs => matchesAll doc qs
    | none =>
      match qor with
      | some qs => matchesAny doc qs
      | none =>
        match qnot with
        | some q => ! matchesQ doc q
        | none => matchesFields doc fields

/-- `query.$and.every((q) => this.matches(doc, q))`. -/
def matchesAll (doc : Obj) : List Query → Bool
  | [] => true
  | q :: rest => matchesQ doc q && matchesAll doc rest

/-- `query.$or.some((q) => this.matches(doc, q))`. -/
def matchesAny (doc : Obj) : List Query → Bool
  | [] => false
  | q :: rest => matchesQ doc q || matchesAny doc rest
end

/-- `Object.keys(query).length` on the query node object. -/
def queryKeyCount : Query → Nat
  | .node fields qand qor qnot =>
    fields.length + (if qand.isSome then 1 else 0) +
      (if qor.isSome then 1 else 0) + (if qnot.isSome then 1 else 0)

/-- `QueryEngine.filter`: an absent or key-less query returns the list
unchanged; otherwise keep the documents that match. -/
def filterQ (docs : List Obj) (query : Option Query) : List Obj :=
  match query with
  | none => docs
  | some q =>
    if queryKeyCount q = 0 then docs
    else docs.filter (fun doc => matchesQ doc q)

mutual
/-- Modelled from the spec (§3 Data model): "a node matches only if all of its
field predicates match and all present combinators are satisfied."  This is
the comparison semantics for the refinement claim about mixed nodes; the
engine's actual `matchesQ` is above. -/
def specMatches (doc : Obj) : Query → Bool
  | .node fields qand qor qnot =>
    matchesFields doc fields &&
    (match qand with
     | some qs => specMatchesAll doc qs
     | none => true) &&
    (match qor with
     | some qs => specMatchesAny doc qs
     | none => true) &&
    (match qnot with
     | some q => ! specMatches doc q
     | none => true)

/-- All sub-queries satisfied (spec semantics). -/
def specMatchesAll (doc : Obj) : List Query → Bool
  | [] => true
  | q :: rest => specMatches doc q && specMatchesAll doc rest

/-- Some sub-query satisfied (spec semantics). -/
def specMatchesAny (doc : Obj) : List Query → Bool
  | [] => false
  | q :: rest => specMatches doc q || specMatchesAny doc rest
end

/-- The comparator body of `Collection.sortDocuments` on one document pair:
walk the sort entries in order; the first key on which the two documents
compare strictly decides, later keys are ignored; documents equal (or
incomparable, e.g. a missing field) under every key compare as `0`.
An absent field is JS `undefined`, which is `<`/`>`-incomparable with
everything. -/
def cmpDocs (entries : List (String × Value)) (a b : Obj) : Int :=
  match entries with
  | [] => 0
  | (k, ord) :: rest =>
    let aVal := lookupF a k
    let bVal := lookupF b k
    let dir : Int := if ord = .vnum (-1) ∨ ord = .vstr "desc" then -1 else 1
    let ltAB := match aVal, bVal with
      | some x, some y => jsLtB x y
      | _, _ => false
    let gtAB := match aVal, bVal with
      | some x, some y => jsGtB x y
      | _, _ => false
    if ltAB then -1 * dir
    else if gtAB then 1 * dir
    else cmpDocs rest a b

/-- Stable insertion of one document into an already-sorted prefix: the new
element goes after every element that does not compare strictly greater. -/
def insertSorted (cmp : Obj → Obj → Int) (x : Obj) : List Obj → List Obj
  | [] => [x]
  | y :: ys => if cmp y x > 0 then x :: y :: ys else y :: insertSorted cmp x ys

/-- `Collection.sortDocuments`: `[...docs].sort(comparator)`.  The JS engine's
sort is stable and, for a consistent comparator, produces the unique stable
order; it is modelled by a stable insertion sort with the same comparator. -/
def sortDocuments (docs : List Obj) (sort : List (String × Value)) : List Obj :=
  docs.foldl (fun acc d => insertSorted (cmpDocs sort) d acc) []

/-- `list.slice(n)`: a non-negative start drops a prefix, a negative start
keeps a suffix of at most `-n` elements. -/
def jsSliceFrom (l : List Obj) (n : Int) : List Obj :=
  if 0 ≤ n then l.drop n.toNat
  else l.drop (l.length - min l.length (-n).toNat)

/-- `list.slice(0, n)`: a non-negative end takes a prefix, a negative end
removes at most `-n` elements from the tail. -/
def jsSliceTo (l : List Obj) (n : Int) : List Obj :=
  if 0 ≤ n then l.take n.toNat
  else l.take (l.length - min l.length (-n).toNat)

/-- The options record of `Collection.find`.  `none` models an absent
property. -/
structure FindOptions : Type where
  sort : Option (List (String × Value)) := none
  skip : Option Int := none
  limit : Option Int := none

/-- `Collection.find` after the storage full scan: filter, then sort when a
sort spec is present, then skip when `options.skip` is truthy (`0` is falsy
and skips nothing), then limit when `options.limit` is truthy (`limit: 0`
therefore does not truncate).  `deepClone` of each result is the identity on
values and is not represented. -/
def find (allDocs : List Obj) (query : Option Query) (opts : FindOptions) :
    List Obj :=
  let r1 := filterQ allDocs query
  let r2 := match opts.sort with
    | some s => sortDocuments r1 s
    | none => r1
  let r3 := match opts.skip with
    | some n => if n ≠ 0 then jsSliceFrom r2 n else r2
    | none => r2
  match opts.limit with
  | some n => if n ≠ 0 then jsSliceTo r3 n else r3
  | none => r3

/-!
## Update engine (`Collection.applyUpdate`)

The source builds `result = { ...doc }`, a SHALLOW copy: each field of
`result` initially refers to the very same object as the corresponding field
of `doc`.  Assignments (`Object.assign`, `result[key] = ...`) rebind the field
of `result` and leave `doc` alone, while the in-place array mutations
(`current.push(value)` in the `$push` and `$addToSet` branches) act on the
shared object and are visible through `doc`.  The state below tracks, per
field of the working copy, its current value and whether it still refers to
the caller's original object; `docCur` is the caller's document as observable
after the call. -/

/-- Working-copy entries: field name, current value, and whether the binding
still refers to the original document's object. -/
abbrev ResList := List (String × Value × Bool)

/-- Lookup in the working copy. -/
def lookupRes : ResList → String → Option (Value × Bool)
  | [], _ => none
  | (k0, v0, a0) :: rest, k =>
    if k0 = k then some (v0, a0) else lookupRes rest k

/-- JS property assignment on the working copy: an existing key keeps its
position and is rebound (dropping the alias to the original object), a new
key is appended. -/
def assignField : ResList → String → Value → ResList
  | [], k, v => [(k, v, false)]
  | (k0, v0, a0) :: rest, k, v =>
    if k0 = k then (k0, v, false) :: rest
    else (k0, v0, a0) :: assignField rest k v

/-- In-place mutation of the object currently bound at `k` (array `push`):
the value changes but the binding — and hence the alias — persists. -/
def setResKeepAlias : ResList → String → Value → ResList
  | [], _, _ => []
  | (k0, v0, a0) :: rest, k, v =>
    if k0 = k then (k0, v, a0) :: rest
    else (k0, v0, a0) :: setResKeepAlias rest k v

/-- JS `delete result[key]`. -/
def deleteField : ResList → String → ResList
  | [], _ => []
  | (k0, v0, a0) :: rest, k =>
    if k0 = k then rest else (k0, v0, a0) :: deleteField rest k

/-- An in-place mutation as seen through the caller's document: the field's
object changed its contents, the field itself is still there. -/
def updatePlain : Obj → String → Value → Obj
  | [], _, _ => []
  | (k0, v0) :: rest, k, v =>
    if k0 = k then (k0, v) :: rest else (k0, v0) :: updatePlain rest k v

/-- `Object.keys(update).some((key) => key.startsWith('$'))`. -/
def hasOperators (update : Obj) : Bool :=
  update.any (fun kv => jsStartsWith kv.fst "$")

/-- The shallow copy `{ ...doc }`: every field still refers to the
document's object. -/
def initRes (doc : Obj) : ResList := doc.map (fun kv => (kv.fst, kv.snd, true))

/-- Update-engine state: working copy plus the caller's document as
observable after the mutations so far. -/
structure USt : Type where
  res : ResList
  docCur : Obj

/-- Initial state for `applyUpdate doc`. -/
def initSt (doc : Obj) : USt := { res := initRes doc, docCur := doc }

/-- Forget the alias bookkeeping: the value of the working copy. -/
def stripRes (l : ResList) : Obj := l.map (fun kva => (kva.fst, kva.snd.fst))

/-- `$set` branch: `Object.assign(result, ops.$set)` when the operand is
truthy.  A truthy non-object operand has no own enumerable string properties
worth modelling and is a no-op. -/
def phaseSet (st : USt) (arg : Option Value) : USt :=
  match arg with
  | some (.vobj m) =>
    m.foldl (fun s kv => { s with res := assignField s.res kv.fst kv.snd }) st
  | _ => st

/-- `$unset` branch: delete every key of the operand (the operand's values
are irrelevant, only its keys are iterated). -/
def phaseUnset (st : USt) (arg : Option Value) : USt :=
  match arg with
  | some (.vobj m) =>
    m.foldl (fun s kv => { s with res := deleteField s.res kv.fst }) st
  | _ => st

/-- One `$inc` entry: only when both the current value and the operand are
numbers is the field rebound to their sum; otherwise a silent no-op. -/
def incStep (s : USt) (k : String) (v : Value) : USt :=
  match v with
  | .vnum i =>
    match lookupRes s.res k with
    | some (.vnum c, _) => { s with res := assignField s.res k (.vnum (c + i)) }
    | _ => s
  | _ => s

/-- `$inc` branch. -/
def phaseInc (st : USt) (arg : Option Value) : USt :=
  match arg with
  | some (.vobj m) => m.foldl (fun s kv => incStep s kv.fst kv.snd) st
  | _ => st

/-- One `$push` entry: `current.push(value)` mutates the array in place, so
when the binding still aliases the caller's document the change is visible
there too. -/
def pushStep (s : USt) (k : String) (v : Value) : USt :=
  match lookupRes s.res k with
  | some (.varr l, al) =>
    { res := setResKeepAlias s.res k (.varr (l ++ [v])),
      docCur := if al then updatePlain s.docCur k (.varr (l ++ [v])) else s.docCur }
  | _ => s

/-- `$push` branch. -/
def phasePush (st : USt) (arg : Option Value) : USt :=
  match arg with
  | some (.vobj m) => m.foldl (fun s kv => pushStep s kv.fst kv.snd) st
  | _ => st

/-- One `$pull` entry: `result[key] = current.filter((v) => v !== value)` —
a strict-equality filter producing a fresh array, rebinding the field. -/
def pullStep (s : USt) (k : String) (v : Value) : USt :=
  match lookupRes s.res k with
  | some (.varr l, _) =>
    { s with res := assignField s.res k (.varr (l.filter (fun x => ! strictEq x v))) }
  | _ => s

/-- `$pull` branch. -/
def phasePull (st : USt) (arg : Option Value) : USt :=
  match arg with
  | some (.vobj m) => m.foldl (fun s kv => pullStep s kv.fst kv.snd) st
  | _ => st

/-- One `$addToSet` entry: `current.includes(value)` is a strict-equality
membership test; on a miss the value is pushed in place. -/
def addToSetStep (s : USt) (k : String) (v : Value) : USt :=
  match lookupRes s.res k with
  | some (.varr l, al) =>
    if l.any (fun x => strictEq x v) then s
    else
      { res := setResKeepAlias s.res k (.varr (l ++ [v])),
        docCur := if al then updatePlain s.docCur k (.varr (l ++ [v])) else s.docCur }
  | _ => s

/-- `$addToSet` branch. -/
def phaseAddToSet (st : USt) (arg : Option Value) : USt :=
  match arg with
  | some (.vobj m) => m.foldl (fun s kv => addToSetStep s kv.fst kv.snd) st
  | _ => st

/-- `Collection.applyUpdate` as a state transformer: direct mode merges the
update's entries in order; operator mode applies the six operator branches in
the source's fixed textual order, each driven by the property lookup of its
operator key. -/
def applyUpdateSt (doc : Obj) (update : Obj) : USt :=
  let st := initSt doc
  if hasOperators update then
    phaseAddToSet
      (phasePull
        (phasePush
          (phaseInc
            (phaseUnset
              (phaseSet st (lookupF update "$set"))
              (lookupF update "$unset"))
            (lookupF update "$inc"))
          (lookupF update "$push"))
        (lookupF update "$pull"))
      (lookupF update "$addToSet")
  else
    update.foldl (fun s kv => { s with res := assignField s.res kv.fst kv.snd }) st

/-- The document `applyUpdate` returns. -/
def applyUpdate (doc : Obj) (update : Obj) : Obj :=
  stripRes (applyUpdateSt doc update).res

/-- The caller's input document as observable after `applyUpdate` returns
(witnessing any in-place mutation). -/
def docAfterUpdate (doc : Obj) (update : Obj) : Obj :=
  (applyUpdateSt doc update).docCur

/-- Is the argument a truthy object mapping that names field `k`? -/
def argNamesField (arg : Option Value) (k : String) : Bool :=
  match arg with
  | some (.vobj m) => (lookupF m k).isSome
  | _ => false

/-- Does the update description name field `k` under operator `op`? -/
def opNamesField (update : Obj) (op : String) (k : String) : Bool :=
  argNamesField (lookupF update op) k

/-- Does the document hold an array (sequence) under field `f`? -/
def isArrayField (d : Obj) (f : String) : Bool :=
  match lookupF d f with
  | some (.varr _) => true
  | _ => false

/-- The six update operators, in their fixed application order. -/
def updateOpKeys : List String :=
  ["$set", "$unset", "$inc", "$push", "$pull", "$addToSet"]

/-!
## Insert path (`Collection.insert`)

The `Storage` adapter persists each collection in an IndexedDB object store
with `keyPath: "_id"`; `getById` is the store's point lookup and
`insert`/`update` write under the document's identifier.  IndexedDB itself is
an external collaborator, so a collection's backing store is modelled as the
identifier-keyed document map it implements.  `Collection.insert` is embedded
from the source: choose the identifier (`doc._id || idGenerator()` — an empty
string is falsy), build `{ ...doc, _id: id }`, check for an existing document
under that identifier and raise `DuplicateKeyError` before any write,
otherwise persist.  No schema is configured in the claims under verification,
so validation is a no-op; a non-string `_id` value is outside the model
(identifiers are non-empty strings per the data model). -/

/-- A collection's backing store: identifier-keyed documents. -/
abbrev DbStore := List (String × Obj)

/-- `Storage.getById` (spec `getByKey`). -/
def getByKey : DbStore → String → Option Obj
  | [], _ => none
  | (k0, d0) :: rest, k => if k0 = k then some d0 else getByKey rest k

/-- `Storage.insert`/`put`: insert or overwrite by identifier. -/
def putKey : DbStore → String → Obj → DbStore
  | [], k, d => [(k, d)]
  | (k0, d0) :: rest, k, d =>
    if k0 = k then (k0, d) :: rest else (k0, d0) :: putKey rest k d

/-- JS object update `{ ...doc, _id: id }`: an existing key keeps its
position, a new key is appended. -/
def objSet : Obj → String → Value → Obj
  | [], k, v => [(k, v)]
  | (k0, v0) :: rest, k, v =>
    if k0 = k then (k0, v) :: rest else (k0, v0) :: objSet rest k v

/-- Outcome of `Collection.insert`: the new store and returned document, or a
`DuplicateKeyError` carrying the offending identifier. -/
inductive InsertResult : Type where
  | ok : DbStore → Obj → InsertResult
  | dupErr : String → InsertResult
deriving DecidableEq

/-- `Collection.insert` over the store snapshot. -/
def insertDoc (store : DbStore) (doc : Obj) (genId : String) : InsertResult :=
  let id := match lookupF doc "_id" with
    | some (.vstr s) => if s = "" then genId else s
    | _ => genId
  let newDoc := objSet doc "_id" (.vstr id)
  match getByKey store id with
  | some _ => .dupErr id
  | none => .ok (putKey store id newDoc) newDoc

/-- The store contents after an `insert` call returns or throws: an error is
raised before any write, so the store is unchanged on the duplicate path. -/
def storeAfterInsert (store : DbStore) (doc : Obj) (genId : String) : DbStore :=
  match insertDoc store doc genId with
  | .ok s _ => s
  | .dupErr _ => store

/-!
## Auxiliary lemma layer
-/

/-- All ways to insert `x` into one position of a list. -/
def insAll {α : Type} (x : α) : List α → List (List α)
  | [] => [[x]]
  | y :: ys => (x :: y :: ys) :: (insAll x ys).map (fun l => y :: l)

/-- A computable, kernel-reducible permutation enumerator (used to decide a
statement quantified over all insertion orders of a concrete document set). -/
def permsOf {α : Type} : List α → List (List α)
  | [] => [[]]
  | x :: xs => (permsOf xs).flatMap (insAll x)

/-!
### Concrete instances used by counterexamples and witnesses
-/

/-- A document with ages pipeline example: age 25. -/
def docAge25 : Obj := [("_id", .vstr "1"), ("age", .vnum 25)]

/-- Age 30. -/
def docAge30 : Obj := [("_id", .vstr "2"), ("age", .vnum 30)]

/-- Age 35. -/
def docAge35 : Obj := [("_id", .vstr "3"), ("age", .vnum 35)]

/-- Age 28. -/
def docAge28 : Obj := [("_id", .vstr "4"), ("age", .vnum 28)]

/-- The spec's example collection: ages 25, 30, 35, 28. -/
def docsAges : List Obj := [docAge25, docAge30, docAge35, docAge28]

/-- Find options: sort by age descending, limit 2. -/
def sortAgeDescLimit2 : FindOptions :=
  { sort := some [("age", .vnum (-1))], limit := some 2 }

/-- A document whose field `a` is `1`. -/
def mixedDoc : Obj := [("_id", .vstr "1"), ("a", .vnum 1)]

/-- A query node mixing a failing field predicate `a = 2` with a trivially
true `$and` combinator. -/
def mixedQuery : Query :=
  .node [("a", .vnum 2)] (some [.node [] none none none]) none none

/-- A document with an array field `xs`. -/
def pushDoc : Obj := [("_id", .vstr "1"), ("xs", .varr [.vnum 1])]

/-- A `$push` update description targeting `xs`. -/
def pushUpdate : Obj := [("$push", .vobj [("xs", .vnum 2)])]

/-- A document whose field `f` is an array containing the array `[1]`. -/
def pullDoc : Obj := [("_id", .vstr "1"), ("f", .varr [.varr [.vnum 1]])]

/-- A `$pull` whose operand `[1]` is structurally equal to the stored
element but is a distinct array object. -/
def pullUpdate : Obj := [("$pull", .vobj [("f", .varr [.vnum 1])])]

/-- A document with identifier `"a"`. -/
def idDoc : Obj := [("_id", .vstr "a"), ("x", .vnum 1)]

/-- A store already holding a document under identifier `"i"`. -/
def dupStore : DbStore := [("i", [("_id", .vstr "i"), ("x", .vnum 1)])]

/-- A fresh document carrying the already-present identifier `"i"`. -/
def dupDoc : Obj := [("_id", .vstr "i"), ("y", .vnum 2)]

/-- Operator-mode update: `$inc` then `$set` in textual order. -/
def updIncSet : Obj :=
  [("$inc", .vobj [("a", .vnum 2)]), ("$set", .vobj [("b", .vnum 5)])]

/-- The same operator mapping supplied in the opposite key order. -/
def updSetInc : Obj :=
  [("$set", .vobj [("b", .vnum 5)]), ("$inc", .vobj [("a", .vnum 2)])]

theorem mem_insAll_split {α : Type} (x : α) :
    ∀ (s t : List α), (s ++ x :: t) ∈ insAll x (s ++ t) := by
  intro s
  induction s with
  | nil => intro t; cases t <;> simp [insAll]
  | cons y s ih =>
    intro t
    simp only [List.cons_append, insAll, List.mem_cons]
    right
    exact List.mem_map_of_mem (fun l => y :: l) (ih t)

theorem perm_mem_permsOf {α : Type} :
    ∀ {l₀ l : List α}, l.Perm l₀ → l ∈ permsOf l₀ := by
  intro l₀
  induction l₀ with
  | nil =>
    intro l h
    rw [List.perm_nil.mp h]
    simp [permsOf]
  | cons x xs ih =>
    intro l h
    have hx : x ∈ l := h.symm.subset (List.mem_cons_self x xs)
    obtain ⟨s, t, rfl⟩ := List.append_of_mem hx
    have hmid : (x :: (s ++ t)).Perm (x :: xs) :=
      (List.perm_middle.symm).trans h
    have hrest : (s ++ t).Perm xs := hmid.cons_inv
    have hmem := ih hrest
    simp only [permsOf, List.mem_flatMap]
    exact ⟨s ++ t, hmem, mem_insAll_split x s t⟩

theorem lookupF_eq_none_iff (l : Obj) (k : String) :
    lookupF l k = none ↔ ∀ kv ∈ l, kv.fst ≠ k := by
  induction l with
  | nil => simp [lookupF]
  | cons kv rest ih =>
    obtain ⟨k0, v0⟩ := kv
    by_cases h : k0 = k
    · subst h; simp [lookupF]
    · simp [lookupF, h, ih]

theorem lookupF_stripRes (l : ResList) (k : String) :
    lookupF (stripRes l) k = Option.map Prod.fst (lookupRes l k) := by
  induction l with
  | nil => simp [stripRes, lookupF, lookupRes]
  | cons kva rest ih =>
    obtain ⟨k0, v0, a0⟩ := kva
    by_cases h : k0 = k
    · subst h; simp [stripRes, lookupF, lookupRes]
    · simp [stripRes, lookupF, lookupRes, h] at ih ⊢
      exact ih

theorem lookupRes_initRes (d : Obj) (k : String) :
    lookupRes (initRes d) k = Option.map (fun v => (v, true)) (lookupF d k) := by
  induction d with
  | nil => simp [initRes, lookupRes, lookupF]
  | cons kv rest ih =>
    obtain ⟨k0, v0⟩ := kv
    by_cases h : k0 = k
    · subst h; simp [initRes, lookupRes, lookupF]
    · simp [initRes, lookupRes, lookupF, h] at ih ⊢
      exact ih

theorem stripRes_initRes (d : Obj) : stripRes (initRes d) = d := by
  induction d with
  | nil => simp [stripRes, initRes]
  | cons kv rest ih => simp [stripRes, initRes] at ih ⊢; exact ih

theorem lookupRes_assignField_self (l : ResList) (k : String) (v : Value) :
    lookupRes (assignField l k v) k = some (v, false) := by
  induction l with
  | nil => simp [assignField, lookupRes]
  | cons kva rest ih =>
    obtain ⟨k0, v0, a0⟩ := kva
    by_cases h : k0 = k
    · subst h; simp [assignField, lookupRes]
    · simp [assignField, lookupRes, h, ih]

theorem lookupRes_assignField_ne (l : ResList) (k k2 : String) (v : Value)
    (h : k2 ≠ k) : lookupRes (assignField l k v) k2 = lookupRes l k2 := by
  induction l with
  | nil => simp [assignField, lookupRes, Ne.symm h]
  | cons kva rest ih =>
    obtain ⟨k0, v0, a0⟩ := kva
    by_cases h0 : k0 = k
    · subst h0
      simp [assignField, lookupRes, Ne.symm h]
    · by_cases h2 : k0 = k2
      · subst h2; simp [assignField, lookupRes, h0]
      · simp [assignField, lookupRes, h0, h2, ih]

theorem lookupRes_setResKeepAlias_ne (l : ResList) (k k2 : String) (v : Value)
    (h : k2 ≠ k) : lookupRes (setResKeepAlias l k v) k2 = lookupRes l k2 := by
  induction l with
  | nil => simp [setResKeepAlias, lookupRes]
  | cons kva rest ih =>
    obtain ⟨k0, v0, a0⟩ := kva
    by_cases h0 : k0 = k
    · subst h0
      simp [setResKeepAlias, lookupRes, Ne.symm h]
    · by_cases h2 : k0 = k2
      · subst h2; simp [setResKeepAlias, lookupRes, h0]
      · simp [setResKeepAlias, lookupRes, h0, h2, ih]

theorem lookupRes_deleteField_ne (l : ResList) (k k2 : String)
    (h : k2 ≠ k) : lookupRes (deleteField l k) k2 = lookupRes l k2 := by
  induction l with
  | nil => simp [deleteField, lookupRes]
  | cons kva rest ih =>
    obtain ⟨k0, v0, a0⟩ := kva
    by_cases h0 : k0 = k
    · subst h0
      simp [deleteField, lookupRes, Ne.symm h]
    · by_cases h2 : k0 = k2
      · subst h2; simp [deleteField, lookupRes, h0]
      · simp [deleteField, lookupRes, h0, h2, ih]

/-- Invariant preservation through a fold, with membership available at each
step. -/
theorem foldl_preserve_mem {α β : Type} (P : β → Prop) (f : β → α → β) :
    ∀ (l : List α) (s : β), (∀ s2 x, x ∈ l → P s2 → P (f s2 x)) → P s →
      P (l.foldl f s) := by
  intro l
  induction l with
  | nil => intro s _ hs; simpa using hs
  | cons x rest ih =>
    intro s hstep hs
    simp only [List.foldl_cons]
    exact ih (f s x) (fun s2 y hy => hstep s2 y (List.mem_cons_of_mem x hy))
      (hstep s x (List.mem_cons_self x rest) hs)

theorem matchesOps_nil (v : Option Value) : matchesOps v [] = true := rfl

theorem phaseSet_none (st : USt) : phaseSet st none = st := rfl

theorem phaseUnset_none (st : USt) : phaseUnset st none = st := rfl

theorem phaseInc_none (st : USt) : phaseInc st none = st := rfl

theorem phasePush_none (st : USt) : phasePush st none = st := rfl

theorem phasePull_none (st : USt) : phasePull st none = st := rfl

theorem phaseAddToSet_none (st : USt) : phaseAddToSet st none = st := rfl

theorem foldl_docCur {α : Type} (f : USt → α → USt)
    (hf : ∀ s x, (f s x).docCur = s.docCur) :
    ∀ (l : List α) (s : USt), (l.foldl f s).docCur = s.docCur := by
  intro l
  induction l with
  | nil => intro s; rfl
  | cons x rest ih => intro s; rw [List.foldl_cons, ih, hf]

theorem phaseSet_docCur (st : USt) (arg : Option Value) :
    (phaseSet st arg).docCur = st.docCur := by
  rcases arg with _ | v
  · rfl
  · cases v with
    | vobj m =>
      exact foldl_docCur
        (fun s2 kv => { s2 with res := assignField s2.res kv.1 kv.2 })
        (fun s2 x => rfl) m st
    | vnull => rfl
    | vbool b => rfl
    | vnum n => rfl
    | vstr s2 => rfl
    | varr l2 => rfl

theorem phaseUnset_docCur (st : USt) (arg : Option Value) :
    (phaseUnset st arg).docCur = st.docCur := by
  rcases arg with _ | v
  · rfl
  · cases v with
    | vobj m =>
      exact foldl_docCur
        (fun s2 kv => { s2 with res := deleteField s2.res kv.1 })
        (fun s2 x => rfl) m st
    | vnull => rfl
    | vbool b => rfl
    | vnum n => rfl
    | vstr s2 => rfl
    | varr l2 => rfl

theorem incStep_docCur (s : USt) (k : String) (v : Value) :
    (incStep s k v).docCur = s.docCur := by
  unfold incStep
  split
  · split <;> rfl
  · rfl

theorem phaseInc_docCur (st : USt) (arg : Option Value) :
    (phaseInc st arg).docCur = st.docCur := by
  rcases arg with _ | v
  · rfl
  · cases v with
    | vobj m => exact foldl_docCur _ (fun s2 x => incStep_docCur s2 x.1 x.2) m st
    | vnull => rfl
    | vbool b => rfl
    | vnum n => rfl
    | vstr s2 => rfl
    | varr l2 => rfl

theorem pullStep_docCur (s : USt) (k : String) (v : Value) :
    (pullStep s k v).docCur = s.docCur := by
  unfold pullStep
  split <;> rfl

theorem phasePull_docCur (st : USt) (arg : Option Value) :
    (phasePull st arg).docCur = st.docCur := by
  rcases arg with _ | v
  · rfl
  · cases v with
    | vobj m => exact foldl_docCur _ (fun s2 x => pullStep_docCur s2 x.1 x.2) m st
    | vnull => rfl
    | vbool b => rfl
    | vnum n => rfl
    | vstr s2 => rfl
    | varr l2 => rfl

/-!
### Preservation of a string-valued field through the operator phases

A field whose current value is a string (such as the identifier) cannot be
touched by `$inc` (not a number), nor by `$push`/`$pull`/`$addToSet` (not an
array); `$set` and `$unset` leave it alone when their operand does not name
it. -/

theorem incStep_preserves_str (s : USt) (k k2 : String) (v : Value)
    (i : String) (al : Bool)
    (hP : lookupRes s.res k2 = some (.vstr i, al)) :
    lookupRes (incStep s k v).res k2 = some (.vstr i, al) := by
  by_cases hk : k = k2
  · subst hk
    cases v <;> simp [incStep, hP]
  · cases v with
    | vnum n =>
      simp only [incStep]
      split
      · simp [lookupRes_assignField_ne _ _ _ _ (Ne.symm hk), hP]
      · exact hP
    | vnull => exact hP
    | vbool b => exact hP
    | vstr s2 => exact hP
    | varr l2 => exact hP
    | vobj m2 => exact hP

theorem pushStep_preserves_str (s : USt) (k k2 : String) (v : Value)
    (i : String) (al : Bool)
    (hP : lookupRes s.res k2 = some (.vstr i, al)) :
    lookupRes (pushStep s k v).res k2 = some (.vstr i, al) := by
  by_cases hk : k = k2
  · subst hk
    simp [pushStep, hP]
  · simp [pushStep]
    split
    · simp [lookupRes_setResKeepAlias_ne _ _ _ _ (Ne.symm hk), hP]
    · exact hP

theorem pullStep_preserves_str (s : USt) (k k2 : String) (v : Value)
    (i : String) (al : Bool)
    (hP : lookupRes s.res k2 = some (.vstr i, al)) :
    lookupRes (pullStep s k v).res k2 = some (.vstr i, al) := by
  by_cases hk : k = k2
  · subst hk
    simp [pullStep, hP]
  · simp [pullStep]
    split
    · simp [lookupRes_assignField_ne _ _ _ _ (Ne.symm hk), hP]
    · exact hP

theorem addToSetStep_preserves_str (s : USt) (k k2 : String) (v : Value)
    (i : String) (al : Bool)
    (hP : lookupRes s.res k2 = some (.vstr i, al)) :
    lookupRes (addToSetStep s k v).res k2 = some (.vstr i, al) := by
  by_cases hk : k = k2
  · subst hk
    simp [addToSetStep, hP]
  · simp [addToSetStep]
    split
    · split
      · exact hP
      · simp [lookupRes_setResKeepAlias_ne _ _ _ _ (Ne.symm hk), hP]
    · exact hP

theorem phaseSet_preserves_str (st : USt) (arg : Option Value)
    (k2 : String) (i : String) (al : Bool)
    (harg : argNamesField arg k2 = false)
    (hP : lookupRes st.res k2 = some (.vstr i, al)) :
    lookupRes (phaseSet st arg).res k2 = some (.vstr i, al) := by
  rcases arg with _ | v
  · exact hP
  · cases v with
    | vobj m =>
      simp only [argNamesField] at harg
      have hnone : lookupF m k2 = none :=
        Option.not_isSome_iff_eq_none.mp (by simp [harg])
      have hne : ∀ kv ∈ m, kv.fst ≠ k2 := (lookupF_eq_none_iff m k2).mp hnone
      exact foldl_preserve_mem
        (fun s2 => lookupRes s2.res k2 = some (.vstr i, al))
        (fun s2 kv => { s2 with res := assignField s2.res kv.1 kv.2 }) m st
        (fun s2 x hx hs => by
          simpa [lookupRes_assignField_ne _ _ _ _
            (fun hh => hne x hx hh.symm)] using hs) hP
    | vnull => exact hP
    | vbool b => exact hP
    | vnum n => exact hP
    | vstr s2 => exact hP
    | varr l2 => exact hP

theorem phaseUnset_preserves_str (st : USt) (arg : Option Value)
    (k2 : String) (i : String) (al : Bool)
    (harg : argNamesField arg k2 = false)
    (hP : lookupRes st.res k2 = some (.vstr i, al)) :
    lookupRes (phaseUnset st arg).res k2 = some (.vstr i, al) := by
  rcases arg with _ | v
  · exact hP
  · cases v with
    | vobj m =>
      simp only [argNamesField] at harg
      have hnone : lookupF m k2 = none :=
        Option.not_isSome_iff_eq_none.mp (by simp [harg])
      have hne : ∀ kv ∈ m, kv.fst ≠ k2 := (lookupF_eq_none_iff m k2).mp hnone
      exact foldl_preserve_mem
        (fun s2 => lookupRes s2.res k2 = some (.vstr i, al))
        (fun s2 kv => { s2 with res := deleteField s2.res kv.1 }) m st
        (fun s2 x hx hs => by
          simpa [lookupRes_deleteField_ne _ _ _
            (fun hh => hne x hx hh.symm)] using hs) hP
    | vnull => exact hP
    | vbool b => exact hP
    | vnum n => exact hP
    | vstr s2 => exact hP
    | varr l2 => exact hP

theorem phaseInc_preserves_str (st : USt) (arg : Option Value)
    (k2 : String) (i : String) (al : Bool)
    (hP : lookupRes st.res k2 = some (.vstr i, al)) :
    lookupRes (phaseInc st arg).res k2 = some (.vstr i, al) := by
  rcases arg with _ | v
  · exact hP
  · cases v with
    | vobj m =>
      exact foldl_preserve_mem
        (fun s2 => lookupRes s2.res k2 = some (.vstr i, al))
        (fun s2 kv => incStep s2 kv.1 kv.2) m st
        (fun s2 x _ hs => incStep_preserves_str s2 x.1 k2 x.2 i al hs) hP
    | vnull => exact hP
    | vbool b => exact hP
    | vnum n => exact hP
    | vstr s2 => exact hP
    | varr l2 => exact hP

theorem phasePush_preserves_str (st : USt) (arg : Option Value)
    (k2 : String) (i : String) (al : Bool)
    (hP : lookupRes st.res k2 = some (.vstr i, al)) :
    lookupRes (phasePush st arg).res k2 = some (.vstr i, al) := by
  rcases arg with _ | v
  · exact hP
  · cases v with
    | vobj m =>
      exact foldl_preserve_mem
        (fun s2 => lookupRes s2.res k2 = some (.vstr i, al))
        (fun s2 kv => pushStep s2 kv.1 kv.2) m st
        (fun s2 x _ hs => pushStep_preserves_str s2 x.1 k2 x.2 i al hs) hP
    | vnull => exact hP
    | vbool b => exact hP
    | vnum n => exact hP
    | vstr s2 => exact hP
    | varr l2 => exact hP

theorem phasePull_preserves_str (st : USt) (arg : Option Value)
    (k2 : String) (i : String) (al : Bool)
    (hP : lookupRes st.res k2 = some (.vstr i, al)) :
    lookupRes (phasePull st arg).res k2 = some (.vstr i, al) := by
  rcases arg with _ | v
  · exact hP
  · cases v with
    | vobj m =>
      exact foldl_preserve_mem
        (fun s2 => lookupRes s2.res k2 = some (.vstr i, al))
        (fun s2 kv => pullStep s2 kv.1 kv.2) m st
        (fun s2 x _ hs => pullStep_preserves_str s2 x.1 k2 x.2 i al hs) hP
    | vnull => exact hP
    | vbool b => exact hP
    | vnum n => exact hP
    | vstr s2 => exact hP
    | varr l2 => exact hP

theorem phaseAddToSet_preserves_str (st : USt) (arg : Option Value)
    (k2 : String) (i : String) (al : Bool)
    (hP : lookupRes st.res k2 = some (.vstr i, al)) :
    lookupRes (phaseAddToSet st arg).res k2 = some (.vstr i, al) := by
  rcases arg with _ | v
  · exact hP
  · cases v with
    | vobj m =>
      exact foldl_preserve_mem
        (fun s2 => lookupRes s2.res k2 = some (.vstr i, al))
        (fun s2 kv => addToSetStep s2 kv.1 kv.2) m st
        (fun s2 x _ hs => addToSetStep_preserves_str s2 x.1 k2 x.2 i al hs) hP
    | vnull => exact hP
    | vbool b => exact hP
    | vnum n => exact hP
    | vstr s2 => exact hP
    | varr l2 => exact hP

/-- A non-`$` key in `updateOpKeys`-style position: if some key `k` of the
update has a value and starts with `$`, the update is in operator mode. -/
theorem hasOperators_of_opkey (u : Obj) (k : String)
    (hs : (lookupF u k).isSome = true) (hd : jsStartsWith k "$" = true) :
    hasOperators u = true := by
  induction u with
  | nil => simp [lookupF] at hs
  | cons kv rest ih =>
    obtain ⟨k0, v0⟩ := kv
    by_cases h : k0 = k
    · subst h
      simp [hasOperators, List.any_cons, hd]
    · simp only [lookupF, if_neg h] at hs
      have hrest := ih hs
      simp only [hasOperators, List.any_cons] at hrest ⊢
      simp [hrest]

/-- The `$set` fold leaves every field its operand does not name
untouched. -/
theorem phaseSet_lookup_not_named (st : USt) (S : Obj) (f : String)
    (hS : lookupF S f = none) :
    lookupRes (phaseSet st (some (.vobj S))).res f = lookupRes st.res f := by
  have hne : ∀ kv ∈ S, kv.fst ≠ f := (lookupF_eq_none_iff S f).mp hS
  exact foldl_preserve_mem
    (fun s2 => lookupRes s2.res f = lookupRes st.res f)
    (fun s2 kv => { s2 with res := assignField s2.res kv.1 kv.2 }) S st
    (fun s2 x hx hs => by
      simpa [lookupRes_assignField_ne _ _ _ _ (fun hh => hne x hx hh.symm)]
        using hs) rfl

/-!
## Claim theorems
-/

/-- C8: with a logical combinator as the sole key of its node, `matches`
satisfies the boolean algebra of the spec: `$and` of two sub-queries is the
conjunction, `$or` the disjunction, and `$not` the negation of the engine's
verdicts on the sub-queries, at any composition depth (the sub-queries `A`,
`B` are arbitrary query trees). -/
theorem matchesQ_logical_combinator_algebra :
    ∀ (d : Obj) (A B : Query),
      matchesQ d (.node [] (some [A, B]) none none) =
        (matchesQ d A && matchesQ d B) ∧
      matchesQ d (.node [] none (some [A, B]) none) =
        (matchesQ d A || matchesQ d B) ∧
      matchesQ d (.node [] none none (some A)) = (! matchesQ d A) := by
  intro d A B
  refine ⟨?_, ?_, ?_⟩ <;> simp [matchesQ, matchesAll, matchesAny]

/-- C9: an empty operator mapping as a field predicate matches every
document, so `filter(docs, {f: {}})` returns the list unchanged: the
condition is a non-null, non-`RegExp` object carrying none of the comparison
operators, and every operator check succeeds vacuously. -/
theorem filter_empty_operator_object_matches_all :
    ∀ (docs : List Obj) (f : String),
      filterQ docs (some (.node [(f, .vobj [])] none none none)) = docs := by
  intro docs f
  have hm : ∀ d : Obj,
      matchesQ d (.node [(f, .vobj [])] none none none) = true := by
    intro d
    simp [matchesQ, matchesFields, matchesCondition, matchesOps_nil]
  have hkc : queryKeyCount (.node [(f, .vobj [])] none none none) ≠ 0 := by
    simp [queryKeyCount]
  simp only [filterQ, if_neg hkc]
  exact List.filter_eq_self.mpr (fun a _ => hm a)

/-- C1 counterexample: on the document `{_id:"1", a:1}` and the query
`{a: 2, $and: [{}]}` the engine returns `true` — the `$and` branch returns
immediately and the failing field predicate `a = 2` is never consulted —
while the claim (all field predicates must also match, as `specMatches`
formalises) demands `false`. -/
theorem mixed_node_field_predicates_ignored_cex :
    matchesQ mixedDoc mixedQuery = true ∧
    matchesFields mixedDoc [("a", .vnum 2)] = false ∧
    specMatches mixedDoc mixedQuery = false := by
  refine ⟨by decide, by decide, by decide⟩

/-- C1 amended: combinators take priority over field predicates instead of
being conjoined with them: a node containing `$and` evaluates only the
`$and` sub-queries (field predicates and `$or`/`$not` are ignored);
otherwise `$or` alone decides; otherwise `$not` alone; field predicates are
evaluated only when no combinator is present. -/
theorem matchesQ_combinator_priority :
    ∀ (d : Obj) (fs : List (String × Value)) (qs qs2 : List Query)
      (q : Query) (o : Option (List Query)) (n : Option Query),
      matchesQ d (.node fs (some qs) o n) = matchesAll d qs ∧
      matchesQ d (.node fs none (some qs2) n) = matchesAny d qs2 ∧
      matchesQ d (.node fs none none (some q)) = (! matchesQ d q) ∧
      matchesQ d (.node fs none none none) = matchesFields d fs := by
  intro d fs qs qs2 q o n
  exact ⟨rfl, rfl, rfl, rfl⟩

/-- C10: when any key of the update starts with `$`, the update is operator
mode and every plain (non-`$`) key is silently ignored: field `f` keeps its
value from the document, provided `$set`'s operand does not name `f`. -/
theorem operator_mode_ignores_plain_keys :
    ∀ (d : Obj) (f : String) (v : Value) (S : Obj),
      jsStartsWith f "$" = false → lookupF S f = none →
      lookupF (applyUpdate d [(f, v), ("$set", .vobj S)]) f = lookupF d f := by
  intro d f v S h1 h2
  have hdset : jsStartsWith "$set" "$" = true := by decide
  have hop : hasOperators [(f, v), ("$set", Value.vobj S)] = true := by
    simp [hasOperators, List.any_cons, h1, hdset]
  have hne : ∀ g ∈ updateOpKeys, f ≠ g := by
    intro g hg heq
    subst heq
    fin_cases hg <;> exact absurd h1 (by decide)
  have e_set : lookupF [(f, v), ("$set", Value.vobj S)] "$set" =
      some (.vobj S) := by
    simp [lookupF, hne "$set" (by decide)]
  have e_unset : lookupF [(f, v), ("$set", Value.vobj S)] "$unset" = none := by
    simp [lookupF, hne "$unset" (by decide)]
  have e_inc : lookupF [(f, v), ("$set", Value.vobj S)] "$inc" = none := by
    simp [lookupF, hne "$inc" (by decide)]
  have e_push : lookupF [(f, v), ("$set", Value.vobj S)] "$push" = none := by
    simp [lookupF, hne "$push" (by decide)]
  have e_pull : lookupF [(f, v), ("$set", Value.vobj S)] "$pull" = none := by
    simp [lookupF, hne "$pull" (by decide)]
  have e_add : lookupF [(f, v), ("$set", Value.vobj S)] "$addToSet" =
      none := by
    simp [lookupF, hne "$addToSet" (by decide)]
  unfold applyUpdate applyUpdateSt
  rw [e_set, e_unset, e_inc, e_push, e_pull, e_add]
  simp only [hop, if_true, phaseUnset_none, phaseInc_none, phasePush_none,
    phasePull_none, phaseAddToSet_none]
  rw [lookupF_stripRes, phaseSet_lookup_not_named _ _ _ h2]
  show Option.map Prod.fst (lookupRes (initRes d) f) = lookupF d f
  rw [lookupRes_initRes]
  cases lookupF d f <;> rfl

/-- C10 witness at a concrete input: `{a: 99, $set: {b: 5}}` leaves `a`
untouched. -/
theorem operator_mode_ignores_plain_keys_witness :
    lookupF (applyUpdate mixedDoc [("a", .vnum 99), ("$set", .vobj [("b", .vnum 5)])]) "a" =
      lookupF mixedDoc "a" :=
  operator_mode_ignores_plain_keys mixedDoc "a" (.vnum 99) [("b", .vnum 5)]
    (by decide) (by decide)

/-- C4: operator-mode `applyUpdate` reads only the six operator properties
and applies them in the fixed program order, so two update descriptions that
agree on every operator's operand — whatever the order their keys were
supplied in — produce identical results. -/
theorem applyUpdate_operator_order_independent :
    ∀ (d u1 u2 : Obj),
      updateOpKeys.any (fun k => (lookupF u1 k).isSome) = true →
      (∀ k ∈ updateOpKeys, lookupF u1 k = lookupF u2 k) →
      applyUpdate d u1 = applyUpdate d u2 := by
  intro d u1 u2 hany hagree
  obtain ⟨k, hkmem, hksome⟩ := List.any_eq_true.mp hany
  have hdollar : jsStartsWith k "$" = true := by
    fin_cases hkmem <;> decide
  have hop1 : hasOperators u1 = true := hasOperators_of_opkey u1 k hksome hdollar
  have hksome2 : (lookupF u2 k).isSome = true := by
    rw [← hagree k hkmem]; exact hksome
  have hop2 : hasOperators u2 = true :=
    hasOperators_of_opkey u2 k hksome2 hdollar
  unfold applyUpdate applyUpdateSt
  rw [hagree "$set" (by decide), hagree "$unset" (by decide),
    hagree "$inc" (by decide), hagree "$push" (by decide),
    hagree "$pull" (by decide), hagree "$addToSet" (by decide)]
  simp only [hop1, hop2, if_true]

/-- C4 witness: `{$inc: {a: 2}, $set: {b: 5}}` and `{$set: {b: 5},
$inc: {a: 2}}` yield the same document. -/
theorem applyUpdate_operator_order_independent_witness :
    applyUpdate mixedDoc updIncSet = applyUpdate mixedDoc updSetInc :=
  applyUpdate_operator_order_independent mixedDoc updIncSet updSetInc
    (by decide) (by decide)

/-- C5 counterexample: `$pull` filters with JS strict equality `!==`, not the
engine's structural `isEqual`: pulling the operand `[1]` from a field holding
`[[1]]` removes nothing, although the stored element is structurally equal to
the operand. -/
theorem pull_strict_equality_cex :
    isEqual (.varr [.vnum 1]) (.varr [.vnum 1]) = true ∧
    lookupF (applyUpdate pullDoc pullUpdate) "f" =
      some (.varr [.varr [.vnum 1]]) := by
  refine ⟨by decide, by decide⟩

/-- C5 amended: `$pull` removes exactly the elements strictly equal (`===`)
to the operand — equal primitives are removed, structurally equal but
distinct composites are kept — preserving the order of the remaining
elements; when the field is absent or not a sequence the document is
returned unchanged. -/
theorem pull_removes_strict_equal_elements :
    ∀ (d : Obj) (f : String) (v : Value) (l : List Value),
      (lookupF d f = some (.varr l) →
        lookupF (applyUpdate d [("$pull", .vobj [(f, v)])]) f =
          some (.varr (l.filter (fun x => ! strictEq x v)))) ∧
      (isArrayField d f = false →
        applyUpdate d [("$pull", .vobj [(f, v)])] = d) := by
  intro d f v l
  have hred : applyUpdateSt d [("$pull", .vobj [(f, v)])] =
      pullStep (initSt d) f v := rfl
  constructor
  · intro h
    have hlook : lookupRes (initSt d).res f = some (.varr l, true) := by
      simp [initSt, lookupRes_initRes, h]
    unfold applyUpdate
    rw [hred]
    simp only [pullStep, hlook]
    simp [lookupF_stripRes, lookupRes_assignField_self]
  · intro h
    unfold applyUpdate
    rw [hred]
    unfold isArrayField at h
    rcases e : lookupF d f with _ | w
    · have hl : lookupRes (initSt d).res f = none := by
        simp [initSt, lookupRes_initRes, e]
      simp only [pullStep, hl]
      exact stripRes_initRes d
    · cases w with
      | varr l2 => rw [e] at h; simp at h
      | vnull =>
        have hl : lookupRes (initSt d).res f = some (.vnull, true) := by
          simp [initSt, lookupRes_initRes, e]
        simp only [pullStep, hl]
        exact stripRes_initRes d
      | vbool b =>
        have hl : lookupRes (initSt d).res f = some (.vbool b, true) := by
          simp [initSt, lookupRes_initRes, e]
        simp only [pullStep, hl]
        exact stripRes_initRes d
      | vnum n =>
        have hl : lookupRes (initSt d).res f = some (.vnum n, true) := by
          simp [initSt, lookupRes_initRes, e]
        simp only [pullStep, hl]
        exact stripRes_initRes d
      | vstr s2 =>
        have hl : lookupRes (initSt d).res f = some (.vstr s2, true) := by
          simp [initSt, lookupRes_initRes, e]
        simp only [pullStep, hl]
        exact stripRes_initRes d
      | vobj m =>
        have hl : lookupRes (initSt d).res f = some (.vobj m, true) := by
          simp [initSt, lookupRes_initRes, e]
        simp only [pullStep, hl]
        exact stripRes_initRes d

/-- C5 witness: pulling the primitive `1` from `[1,2,1]` removes both
occurrences in place (order of survivors preserved), and `$pull` on a
non-sequence field is the identity. -/
theorem pull_removes_strict_equal_elements_witness :
    lookupF (applyUpdate [("f", .varr [.vnum 1, .vnum 2, .vnum 1])]
        [("$pull", .vobj [("f", .vnum 1)])]) "f" =
      some (.varr ([.vnum 1, .vnum 2, .vnum 1].filter
        (fun x => ! strictEq x (.vnum 1)))) ∧
    applyUpdate [("g", .vnum 3)] [("$pull", .vobj [("f", .vnum 1)])] =
      [("g", .vnum 3)] :=
  ⟨(pull_removes_strict_equal_elements
      [("f", .varr [.vnum 1, .vnum 2, .vnum 1])] "f" (.vnum 1)
      [.vnum 1, .vnum 2, .vnum 1]).1 (by decide),
   (pull_removes_strict_equal_elements
      [("g", .vnum 3)] "f" (.vnum 1) []).2 (by decide)⟩

/-- C2 counterexample: `applyUpdate` copies the document only shallowly, so
the `$push` branch's in-place `current.push(value)` appends to the caller's
own array: after `applyUpdate({_id:"1", xs:[1]}, {$push:{xs:2}})` the input
document's `xs` has become `[1,2]`. -/
theorem applyUpdate_push_mutates_input_cex :
    docAfterUpdate pushDoc pushUpdate ≠ pushDoc ∧
    docAfterUpdate pushDoc pushUpdate =
      [("_id", .vstr "1"), ("xs", .varr [.vnum 1, .vnum 2])] := by
  refine ⟨by decide, by decide⟩

/-- C2 amended: `applyUpdate` leaves its input document structurally
unchanged for every update description that contains neither a `$push` nor a
`$addToSet` key (direct mode, `$set`, `$unset`, `$inc` and `$pull` all
rebind fields of the working copy without mutating the caller's objects);
only the in-place array pushes of `$push`/`$addToSet` can leak into the
input. -/
theorem applyUpdate_no_mutation_without_push_addToSet :
    ∀ (d u : Obj), lookupF u "$push" = none → lookupF u "$addToSet" = none →
      docAfterUpdate d u = d := by
  intro d u h1 h2
  unfold docAfterUpdate applyUpdateSt
  by_cases hop : hasOperators u = true
  · simp only [hop, if_true]
    rw [h1, h2, phasePush_none, phaseAddToSet_none]
    rw [phasePull_docCur, phaseInc_docCur, phaseUnset_docCur, phaseSet_docCur]
    rfl
  · simp only [Bool.not_eq_true] at hop
    simp only [hop, Bool.false_eq_true, if_false]
    rw [foldl_docCur
      (fun s2 kv => { s2 with res := assignField s2.res kv.1 kv.2 })
      (fun s2 x => rfl) u (initSt d)]
    rfl

/-- C2 witness: a combined `$set`/`$inc`/`$pull` update leaves the input
document untouched. -/
theorem applyUpdate_no_mutation_without_push_addToSet_witness :
    docAfterUpdate pushDoc
      [("$set", .vobj [("b", .vnum 5)]), ("$inc", .vobj [("a", .vnum 1)]),
       ("$pull", .vobj [("xs", .vnum 1)])] = pushDoc :=
  applyUpdate_no_mutation_without_push_addToSet pushDoc
    [("$set", .vobj [("b", .vnum 5)]), ("$inc", .vobj [("a", .vnum 1)]),
     ("$pull", .vobj [("xs", .vnum 1)])] (by decide) (by decide)

/-- C6 counterexample: the identifier is not protected by the update engine:
`$set` naming `_id` overwrites it, a direct-mode update naming `_id`
overwrites it, and `$unset` naming `_id` removes the field entirely. -/
theorem applyUpdate_can_change_id_cex :
    lookupF (applyUpdate idDoc [("$set", .vobj [("_id", .vstr "b")])]) "_id" ≠
      lookupF idDoc "_id" ∧
    lookupF (applyUpdate idDoc [("_id", .vstr "b"), ("x", .vnum 2)]) "_id" =
      some (.vstr "b") ∧
    lookupF (applyUpdate idDoc [("$unset", .vobj [("_id", .vbool true)])])
      "_id" = none := by
  refine ⟨by decide, by decide, by decide⟩

/-- C6 amended: `applyUpdate` preserves a string identifier whenever the
update description does not itself name `_id`: in direct mode when `_id` is
not among the update's keys, and in operator mode when neither the `$set`
nor the `$unset` operand names `_id` (the remaining operators cannot touch a
string-valued field: `$inc` requires a number, `$push`/`$pull`/`$addToSet`
require a sequence). -/
theorem applyUpdate_preserves_id_when_not_named :
    ∀ (d u : Obj) (i : String), lookupF d "_id" = some (.vstr i) →
      (hasOperators u = false → lookupF u "_id" = none →
        lookupF (applyUpdate d u) "_id" = some (.vstr i)) ∧
      (hasOperators u = true → opNamesField u "$set" "_id" = false →
        opNamesField u "$unset" "_id" = false →
        lookupF (applyUpdate d u) "_id" = some (.vstr i)) := by
  intro d u i hid
  have hinit : lookupRes (initSt d).res "_id" = some (.vstr i, true) := by
    simp [initSt, lookupRes_initRes, hid]
  constructor
  · intro hop hnone
    have hne : ∀ kv ∈ u, kv.fst ≠ "_id" := (lookupF_eq_none_iff u "_id").mp hnone
    unfold applyUpdate applyUpdateSt
    simp only [hop, Bool.false_eq_true, if_false]
    have hP := foldl_preserve_mem
      (fun s2 => lookupRes s2.res "_id" = some (.vstr i, true))
      (fun s2 kv => { s2 with res := assignField s2.res kv.1 kv.2 }) u
      (initSt d)
      (fun s2 x hx hs => by
        simpa [lookupRes_assignField_ne _ _ _ _ (fun hh => hne x hx hh.symm)]
          using hs) hinit
    simp [lookupF_stripRes, hP]
  · intro hop hset hunset
    unfold applyUpdate applyUpdateSt
    simp only [hop, if_true]
    have h1 := phaseSet_preserves_str (initSt d) (lookupF u "$set") "_id" i
      true hset hinit
    have h2 := phaseUnset_preserves_str _ (lookupF u "$unset") "_id" i true
      hunset h1
    have h3 := phaseInc_preserves_str _ (lookupF u "$inc") "_id" i true h2
    have h4 := phasePush_preserves_str _ (lookupF u "$push") "_id" i true h3
    have h5 := phasePull_preserves_str _ (lookupF u "$pull") "_id" i true h4
    have h6 := phaseAddToSet_preserves_str _ (lookupF u "$addToSet") "_id" i
      true h5
    simp [lookupF_stripRes, h6]

/-- C6 witness: both modes at concrete inputs: a direct update not naming
`_id` and a `$set`/`$unset`/`$inc`/`$push` combination not naming `_id` both
keep the identifier `"a"`. -/
theorem applyUpdate_preserves_id_when_not_named_witness :
    lookupF (applyUpdate idDoc [("x", .vnum 7)]) "_id" = some (.vstr "a") ∧
    lookupF (applyUpdate idDoc
      [("$set", .vobj [("x", .vnum 7)]),
       ("$unset", .vobj [("y", .vbool true)]),
       ("$inc", .vobj [("_id", .vnum 1)]),
       ("$push", .vobj [("_id", .vnum 1)])]) "_id" = some (.vstr "a") :=
  ⟨(applyUpdate_preserves_id_when_not_named idDoc [("x", .vnum 7)] "a"
      (by decide)).1 (by decide) (by decide),
   (applyUpdate_preserves_id_when_not_named idDoc
      [("$set", .vobj [("x", .vnum 7)]),
       ("$unset", .vobj [("y", .vbool true)]),
       ("$inc", .vobj [("_id", .vnum 1)]),
       ("$push", .vobj [("_id", .vnum 1)])] "a"
      (by decide)).2 (by decide) (by decide) (by decide)⟩

/-- C7: inserting a document whose identifier is already present in the
collection raises a duplicate-key error; the error is raised before any
write, so the store — and with it the existing document and the document
count — is unchanged. (The store adapter is modelled from the spec as an
identifier-keyed map.) -/
theorem insert_duplicate_key_rejected :
    ∀ (store : DbStore) (doc : Obj) (i g : String),
      lookupF doc "_id" = some (.vstr i) → i ≠ "" →
      (getByKey store i).isSome = true →
      insertDoc store doc g = .dupErr i ∧
      storeAfterInsert store doc g = store ∧
      (storeAfterInsert store doc g).length = store.length := by
  intro store doc i g h1 h2 h3
  obtain ⟨e, he⟩ := Option.isSome_iff_exists.mp h3
  have herr : insertDoc store doc g = .dupErr i := by
    unfold insertDoc
    rw [h1]
    simp only [if_neg h2, he]
  refine ⟨herr, ?_, ?_⟩ <;> unfold storeAfterInsert <;> rw [herr]

/-- C7 witness: inserting `{_id:"i", y:2}` into a store already holding a
document keyed `"i"` yields the duplicate-key error and leaves the store as
it was. -/
theorem insert_duplicate_key_rejected_witness :
    insertDoc dupStore dupDoc "gen" = .dupErr "i" ∧
    storeAfterInsert dupStore dupDoc "gen" = dupStore ∧
    (storeAfterInsert dupStore dupDoc "gen").length = dupStore.length :=
  insert_duplicate_key_rejected dupStore dupDoc "i" "gen" (by decide)
    (by decide) (by decide)

/-- C3: the `find` pipeline runs filter, then stable sort, then skip, then
limit.  First conjunct: the spec's example — for every insertion order of the
four documents aged 25, 30, 35, 28, sorting by age descending with limit 2
returns exactly the documents aged 35 and 30, in that order.  Second
conjunct: with a sort spec and truthy skip and limit, `find` is literally
take-of-drop-of-sort-of-filter in that fixed order. -/
theorem find_pipeline_order :
    (∀ l : List Obj, l.Perm docsAges →
      find l none sortAgeDescLimit2 = [docAge35, docAge30]) ∧
    (∀ (docs : List Obj) (q : Option Query) (s : List (String × Value))
      (k n : Int), 0 < k → 0 < n →
      find docs q { sort := some s, skip := some k, limit := some n } =
        ((sortDocuments (filterQ docs q) s).drop k.toNat).take n.toNat) := by
  constructor
  · have hall : ∀ l ∈ permsOf docsAges,
        find l none sortAgeDescLimit2 = [docAge35, docAge30] := by decide
    intro l hl
    exact hall l (perm_mem_permsOf hl)
  · intro docs q s k n hk hn
    simp [find, hk.ne', hn.ne', jsSliceFrom, jsSliceTo, le_of_lt hk,
      le_of_lt hn]

/-- C3 witness: the example collection in its stored order, and the full
pipeline with skip 1 and limit 2. -/
theorem find_pipeline_order_witness :
    find docsAges none sortAgeDescLimit2 = [docAge35, docAge30] ∧
    find docsAges none
        { sort := some [("age", .vnum (-1))], skip := some 1,
          limit := some 2 } =
      ((sortDocuments (filterQ docsAges none)
        [("age", .vnum (-1))]).drop (1 : Int).toNat).take (2 : Int).toNat :=
  ⟨find_pipeline_order.1 docsAges (List.Perm.refl docsAges),
   find_pipeline_order.2 docsAges none [("age", .vnum (-1))] 1 2
     (by decide) (by decide)⟩

end BrowserDB
